import Mathlib

/-!
Verification development for the Oyl RAG platform.

Python text is modelled over `List Char`; machine floats that only ever
hold small decimal fractions are modelled as `ℚ`; fallible external calls
(the Ollama generative model) are modelled as `Except String String`
values; wall-clock measurements are threaded as explicit parameters.

Two divergent chunking implementations exist in the source
(`app/services/rag_pipeline.py` and `app/services/rag_service.py`); both
are embedded, under the namespaces `RagPipeline` and `RagService`.

The while loops of both chunkers advance `start` by `size - overlap`
each iteration.  They are embedded as structural recursion on the suffix
`text[start:]` with an explicit fuel argument equal to the initial text
length; when `overlap < size` every iteration strictly shortens the
suffix, so that fuel is always sufficient (proved where needed).
-/

namespace Oyl

/-- Loop body of `chunk_text` in `app/services/rag_pipeline.py` on the
suffix `u = text[start:]`: append `u[:size]`; stop when `start + size`
reaches the end (`u.length ≤ size`), else advance by
`step = size - overlap`. -/
def chunkGoRP (size step : Nat) : Nat → List Char → List (List Char)
  | 0, _ => []
  | fuel + 1, u =>
      u.take size :: (if u.length ≤ size then [] else chunkGoRP size step fuel (u.drop step))

/-- Function `chunk_text` from `app/services/rag_pipeline.py`
(lines 19-31). -/
def RagPipeline.chunk_text (text : List Char) (chunk_size chunk_overlap : Nat) :
    List (List Char) :=
  if text = [] then []
  else chunkGoRP chunk_size (chunk_size - chunk_overlap) text.length text

/-- Loop body of `chunk_text` in `app/services/rag_service.py` on the
suffix `u = text[start:]`: append `u[:size]`; advance by `step`
unconditionally and continue while `start < len(text)`
(`step < u.length`). -/
def chunkGoRS (size step : Nat) : Nat → List Char → List (List Char)
  | 0, _ => []
  | fuel + 1, u =>
      u.take size :: (if u.length ≤ step then [] else chunkGoRS size step fuel (u.drop step))

/-- Function `chunk_text` from `app/services/rag_service.py`
(lines 74-88).  Unlike the `rag_pipeline.py` variant it has no early
break once a window reaches the end of the text. -/
def RagService.chunk_text (text : List Char) (chunk_size overlap : Nat) :
    List (List Char) :=
  if text = [] then []
  else chunkGoRS chunk_size (chunk_size - overlap) text.length text

/-- Stitch chunks back together: keep the first chunk whole, then drop
the first `overlap` characters of each subsequent chunk and concatenate. -/
def stitch (overlap : Nat) : List (List Char) → List Char
  | [] => []
  | c :: cs => c ++ (cs.map (fun d => d.drop overlap)).flatten

/-!
The Python builtin `sorted` is a stable sort.  It is embedded as a stable
insertion sort: elements are processed in their original order and each
is inserted immediately before the first element that must come strictly
after it (`lt a b = true` reads "a must precede b").  For a total
preorder this is extensionally the unique stable sort, hence a faithful
model of `sorted`.
-/

def pyInsert {α : Type} (lt : α → α → Bool) (a : α) : List α → List α
  | [] => [a]
  | b :: bs => if lt a b then a :: b :: bs else b :: pyInsert lt a bs

def pySorted {α : Type} (lt : α → α → Bool) (l : List α) : List α :=
  l.foldl (fun acc a => pyInsert lt a acc) []

/-!
Teammate routing, from `app/services/orchestration_service.py`.
Assistants carry a primary-key id, a name and a creation timestamp
(modelled as `Nat`); routing weights are Python floats holding small
decimals, modelled as `ℚ`.  A raw weight value from the JSON config is
either numeric (`float()` succeeds) or not.  Assistant ids are unique
(primary key), so a first-match association-list lookup models the
Python dict exactly.
-/

structure Assistant where
  id : String
  name : String
  created_at : Nat
deriving DecidableEq, Repr

/-- Raw value in the `weights` / `weights_by_name` config maps: either
`float()` converts it to a numeric weight, or it does not
(`TypeError` / `ValueError`), in which case the code defaults to `1.0`. -/
inductive WVal
  | num (q : ℚ)
  | nonnum
deriving DecidableEq

def floatOfWVal : WVal → ℚ
  | .num q => q
  | .nonnum => 1

/-- Resolved weight of one assistant, per `_resolve_weights`: look up by
id, else by name, else default `1.0`; non-numeric defaults to `1.0`;
non-positive resolved weights clamp to `0.0`. -/
def resolvedWeight (weights weights_by_name : List (String × WVal)) (a : Assistant) : ℚ :=
  let raw := (weights.lookup a.id).getD ((weights_by_name.lookup a.name).getD (WVal.num 1))
  let q := floatOfWVal raw
  if 0 < q then q else 0

/-- Function `_resolve_weights`: the dict of resolved weights keyed by
assistant id. -/
def resolve_weights (weights weights_by_name : List (String × WVal))
    (assistants : List Assistant) : List (String × ℚ) :=
  assistants.map (fun a => (a.id, resolvedWeight weights weights_by_name a))

/-- Lookup `weights.get(assistant.id, 0.0)` as used by `_route_weighted`. -/
def wOf (w : List (String × ℚ)) (a : Assistant) : ℚ :=
  (w.lookup a.id).getD 0

/-- Comparison performed by sorting on the key
`(weights.get(a.id, 0.0), a.created_at)` with `reverse=True`: `a` must
precede `b` iff its key tuple is lexicographically greater. -/
def routeLt (w : List (String × ℚ)) (a b : Assistant) : Bool :=
  decide (wOf w b < wOf w a) ||
    (decide (wOf w a = wOf w b) && decide (b.created_at < a.created_at))

/-- Function `_route_weighted`: rank descending by `(weight, created_at)`
and take the top `max_assistants`. -/
def route_weighted (assistants : List Assistant) (weights : List (String × ℚ))
    (max_assistants : Nat) : List Assistant :=
  (pySorted (routeLt weights) assistants).take max_assistants

/-- Config value for `max_assistants`: `str(value).isdigit()` either
holds, with `int(value) = n`, or does not. -/
inductive MaxVal
  | digits (n : Nat)
  | other
deriving DecidableEq

structure OrchestrationConfig where
  strategy : Option String
  assistant_ids : Option (List String)
  weights : List (String × WVal)
  weights_by_name : List (String × WVal)
  max_assistants : Option MaxVal

def SUPPORTED_STRATEGIES : List String := ["weighted", "sequential", "parallel"]

/-- ASCII model of the Python `str.lower()` (sufficient for strategy
names). -/
def pyLower (s : String) : String := String.mk (s.toList.map Char.toLower)

/-- Strategy resolution
`str(config.get("strategy", "weighted")).lower()`, defaulted to
`"weighted"` when unsupported. -/
def normalizeStrategy (s : Option String) : String :=
  let raw := pyLower (s.getD "weighted")
  if SUPPORTED_STRATEGIES.contains raw then raw else "weighted"

/-- Function `_assistant_order_for_teammate`: sort ascending by creation
time (stable `sorted`). -/
def assistant_order_for_teammate (assistants : List Assistant) : List Assistant :=
  pySorted (fun a b => decide (a.created_at < b.created_at)) assistants

/-- Function `_resolve_assistants`: creation-ordered list, optionally
restricted to an explicit id subset (an empty or missing subset keeps
all). -/
def resolve_assistants (assistants : List Assistant) (assistant_ids : Option (List String)) :
    List Assistant :=
  let ordered := assistant_order_for_teammate assistants
  match assistant_ids with
  | none => ordered
  | some [] => ordered
  | some ids => ids.filterMap (fun i => ordered.find? (fun a => a.id = i))

/-- Bound resolution
`int(config.get("max_assistants", 1)) if str(config.get("max_assistants", "")).isdigit() else 1`. -/
def resolve_max_assistants : Option MaxVal → Nat
  | some (.digits n) => n
  | some .other => 1
  | none => 1

/-- Assistant-selection portion of `run_teammate_query`; `none` models
the `NotFoundError` raised when no assistants remain after resolution. -/
def run_selection (teammate_assistants : List Assistant) (config : OrchestrationConfig) :
    Option (List Assistant) :=
  let strategy := normalizeStrategy config.strategy
  let assistants := resolve_assistants teammate_assistants config.assistant_ids
  if assistants = [] then none
  else
    let weights := resolve_weights config.weights config.weights_by_name assistants
    some (if strategy = "weighted"
      then route_weighted assistants weights (max 1 (resolve_max_assistants config.max_assistants))
      else assistants)

def assistantA : Assistant := { id := "id-a", name := "A", created_at := 0 }

def assistantB : Assistant := { id := "id-b", name := "B", created_at := 1 }

def configAB : OrchestrationConfig :=
  { strategy := some "weighted"
    assistant_ids := none
    weights := [("id-a", WVal.num (mkRat 1 10)), ("id-b", WVal.num (mkRat 5 2))]
    weights_by_name := []
    max_assistants := some (MaxVal.digits 1) }

def tieX : Assistant := { id := "id-x", name := "X", created_at := 0 }

def tieY : Assistant := { id := "id-y", name := "Y", created_at := 1 }

def configTie : OrchestrationConfig :=
  { strategy := some "weighted"
    assistant_ids := none
    weights := []
    weights_by_name := []
    max_assistants := some (MaxVal.digits 1) }

/-!
Retrieval.  Two implementations exist: `RAGPipeline._retrieve` in
`app/services/rag_pipeline.py` (in-memory tag filter with a fallback to
the unfiltered candidates) and `retrieve_chunks` in
`app/services/retrieval_service.py` (tag filter delegated to the Chroma
`where` clause; falls back only when the filtered query raises).

One Chroma hit carries the chunk text, the metadata (tags comma-joined
into one string, plus the source reference) and a distance.  The vector
index itself is out of scope (a capability); `collection.query` is
modelled as "order the stored entries by ascending distance (stable) and
take `n_results`", with the `where` clause for `$in` keeping exactly the
entries whose full metadata tags string is a member of the filter list
(the `$in` semantics of Chroma on scalar metadata).  A successful query
raises nothing, so the `except` branch of `retrieve_chunks` is never
taken in this model.
-/

/-- Split on a one-character separator, as the Python `s.split(sep)`. -/
def splitOnChar (sep : Char) : List Char → List (List Char)
  | [] => [[]]
  | c :: rest =>
    let r := splitOnChar sep rest
    if c = sep then [] :: r
    else
      match r with
      | [] => [[c]]
      | h :: t => (c :: h) :: t

/-- Whitespace trim, as the Python `s.strip()`. -/
def trimChars (l : List Char) : List Char :=
  ((l.dropWhile Char.isWhitespace).reverse.dropWhile Char.isWhitespace).reverse

/-- Chunk tags as parsed by `_retrieve` in `rag_pipeline.py`:
`[t for t in meta.get("tags", "").split(",") if t]`. -/
def chunkTags (meta_tags : List Char) : List (List Char) :=
  (splitOnChar ',' meta_tags).filter (fun t => t ≠ [])

/-- Chunk tags as parsed by `retrieval_service.py`:
`[t.strip() for t in raw_tags.split(",") if t.strip()] if raw_tags else []`. -/
def serviceTags (raw : List Char) : List (List Char) :=
  if raw = [] then []
  else (splitOnChar ',' raw).filterMap
    (fun t => let s := trimChars t; if s = [] then none else some s)

/-- One Chroma hit as consumed by `RAGPipeline._retrieve`. -/
structure Row where
  doc : List Char
  tags : List Char
  source : List Char
  dist : ℚ
deriving DecidableEq

/-- Overlap test `any(qt in chunk_tags for qt in query_tags)`. -/
def hasOverlap (query_tags chunk_tags : List (List Char)) : Bool :=
  query_tags.any (fun qt => chunk_tags.contains qt)

/-- Method `RAGPipeline._retrieve` (rag_pipeline.py lines 199-218): keep
hits whose tag set intersects the query tags (all hits when the query has
no tags); if that removes everything, fall back to all retrieved hits. -/
def RAGPipeline.retrieve (query_tags : List (List Char)) (rows : List Row) : List Row :=
  let filtered := rows.filter
    (fun r => query_tags.isEmpty || hasOverlap query_tags (chunkTags r.tags))
  if filtered = [] then rows else filtered

/-- Rounding as the Python `round(x, 4)`: scale by `10^4`, round half to
even, unscale.  The even/odd split mirrors the Python banker rounding;
exact halves never arise in the claims below, where it agrees with any
tie convention. -/
def pyRound (q : ℚ) : ℤ :=
  if q - ⌊q⌋ < 1/2 then ⌊q⌋
  else if 1/2 < q - ⌊q⌋ then ⌊q⌋ + 1
  else if ⌊q⌋ % 2 = 0 then ⌊q⌋ else ⌊q⌋ + 1

def round4 (q : ℚ) : ℚ := (pyRound (q * 10000) : ℚ) / 10000

/-- Score `relevance = max(0.0, 1.0 - float(dist))` followed by
`round(relevance, 4)` (retrieval_service.py lines 54-62). -/
def relevance_score (dist : ℚ) : ℚ := round4 (max 0 (1 - dist))

/-- One entry of a Chroma collection as consumed by `retrieve_chunks`. -/
structure Entry where
  doc : List Char
  meta_tags : List Char
  source_document : List Char
  dist : ℚ
deriving DecidableEq

/-- Retrieved chunk record built by `retrieve_chunks`. -/
structure RChunk where
  chunk : List Char
  source_document : List Char
  relevance_score : ℚ
  tags : List (List Char)
deriving DecidableEq

/-- Metadata filter of Chroma for `$in`: keep entries whose scalar
metadata value (the comma-joined tags string) is a member of the filter
list. -/
def chromaWhere (whereTags : Option (List (List Char))) (col : List Entry) : List Entry :=
  match whereTags with
  | none => col
  | some tf => col.filter (fun e => tf.contains e.meta_tags)

/-- Query `collection.query(..., n_results, where)`: filtered entries,
nearest (stably) first, truncated to `n_results`. -/
def chromaQuery (col : List Entry) (whereTags : Option (List (List Char))) (k : Nat) :
    List Entry :=
  (pySorted (fun e f => decide (e.dist < f.dist)) (chromaWhere whereTags col)).take k

/-- Function `retrieve_chunks` (retrieval_service.py): `where` filter
from the tag list (`if tag_filter:` — an empty list means no filter),
query, then build the result records. -/
def retrieve_chunks (col : List Entry) (tag_filter : List (List Char)) (top_k : Nat) :
    List RChunk :=
  let whereF : Option (List (List Char)) := if tag_filter = [] then none else some tag_filter
  (chromaQuery col whereF top_k).map (fun e =>
    { chunk := e.doc
      source_document := e.source_document
      relevance_score := relevance_score e.dist
      tags := serviceTags e.meta_tags })

def c1Row : Row :=
  { doc := "Chunk about refund policy.".toList
    tags := "refund,policy".toList
    source := "policy.pdf".toList
    dist := mkRat 1 10 }

def c1Entry : Entry :=
  { doc := "Chunk about refund policy.".toList
    meta_tags := "refund,policy".toList
    source_document := "policy.pdf".toList
    dist := mkRat 1 10 }

/-- String search: `findSplit pat l = some (pre, post)` splits `l` as
`pre ++ pat ++ post` at the first occurrence of `pat`; `none` when `pat`
does not occur. -/
def hasPrefixL : List Char → List Char → Bool
  | [], _ => true
  | _ :: _, [] => false
  | p :: ps, c :: cs => p == c && hasPrefixL ps cs

def findSplit (pat : List Char) : List Char → Option (List Char × List Char)
  | [] => if hasPrefixL pat [] then some ([], []) else none
  | c :: rest =>
    if hasPrefixL pat (c :: rest) then some ([], (c :: rest).drop pat.length)
    else
      match findSplit pat rest with
      | some (pre, post) => some (c :: pre, post)
      | none => none

/-- Occurrence test: whether `pat` occurs as a contiguous substring of
`l`. -/
def containsSub (pat l : List Char) : Bool := (findSplit pat l).isSome

def thinkOpen : List Char := "<think>".toList

def thinkClose : List Char := "</think>".toList

/-- Modelled from the spec: `_extract_reasoning_steps` is imported by
`app/api/v1/endpoints/orchestration.py` from
`app/services/orchestration_service.py` and exercised by the tests, but
its definition is missing from the source tree.  Per the spec, each
response is parsed for one or more `<think>` / `</think>` delimited
segments; this loop collects the delimited segments in order and the
remainder with the marked spans removed.  An opening marker with no
matching closing marker leaves the text untouched.  Fuel (the input
length) bounds the recursion; each iteration continues past the closing
marker, so the input length is always sufficient. -/
def extractGo : Nat → List Char → List (List Char) × List Char
  | 0, l => ([], l)
  | fuel + 1, l =>
    match findSplit thinkOpen l with
    | none => ([], l)
    | some (pre, rest) =>
      match findSplit thinkClose rest with
      | none => ([], l)
      | some (inner, post) =>
        let r := extractGo fuel post
        (inner :: r.1, pre ++ r.2)

/-- Modelled from the spec: reasoning steps of one segment — split on
line breaks, trim each, drop empties. -/
def segSteps (seg : List Char) : List (List Char) :=
  ((splitOnChar '\n' seg).map trimChars).filter (fun t => t ≠ [])

/-- Modelled from the spec: `_extract_reasoning_steps(text)` returns the
ordered reasoning-step list drawn from the delimited thinking segments
and the answer (the input with the marked spans removed). -/
def extract_reasoning_steps (s : String) : List String × String :=
  let r := extractGo s.toList.length s.toList
  (((r.1.map segSteps).flatten).map (fun l => String.mk l), String.mk r.2)

/-!
Tagging, from `app/services/tagging_service.py` (the `generate_tags`
service) and `app/services/rag_pipeline.py` (`RAGPipeline.tag_text`).
The single Ollama generate call each makes is modelled by its outcome:
`Except.ok raw` (the model text) or `Except.error e` (any failure of
the call).
-/

def toLowerL (l : List Char) : List Char := l.map Char.toLower

/-- Split on any of several one-character separators, as
`re.split(r"[,\n]", raw)`. -/
def splitOnAny (seps : List Char) : List Char → List (List Char)
  | [] => [[]]
  | c :: rest =>
    let r := splitOnAny seps rest
    if seps.contains c then [] :: r
    else
      match r with
      | [] => [[c]]
      | h :: t => (c :: h) :: t

/-- Function `_parse_tags`: split the raw response on comma or newline,
strip, lower-case, drop empties. -/
def parse_tags (raw : List Char) : List (List Char) :=
  (splitOnAny [',', '\n'] raw).filterMap
    (fun t => let s := trimChars t; if s = [] then none else some (toLowerL s))

/-- Function `generate_tags` of `tagging_service.py` (lines 23-35):
returns the first `n` parsed tags of a successful generate call, and `[]`
on any exception. -/
def generate_tags (gen : Except String String) (n : Nat) : List String :=
  match gen with
  | Except.ok response => ((parse_tags response.toList).take n).map (fun l => String.mk l)
  | Except.error _ => []

/-- Method `RAGPipeline.tag_text` (rag_pipeline.py lines 105-114): split
the raw response on commas, strip, lower-case, drop empties, keep five.
There is no exception handler: a failing generate call propagates. -/
def RAGPipeline.tag_text (gen : Except String String) : Except String (List String) :=
  match gen with
  | Except.ok raw =>
    Except.ok ((((splitOnChar ',' raw.toList).filterMap
      (fun t => let s := trimChars t; if s = [] then none else some (toLowerL s))).take 5).map
      (fun l => String.mk l))
  | Except.error e => Except.error e

/-!
Query short-circuiting.  Two implementations: the endpoint
`query_teammate` in `app/api/v1/endpoints/orchestration.py` and
`RAGPipeline.query` in `app/services/rag_pipeline.py`.  The inference
engines are passed as function parameters so that "no generation call is
made" can be stated as independence from them.  Wall-clock measurement
(`time.time()` differences) is threaded as an explicit parameter holding
the measured elapsed value.  The settings `FAST_MODEL` and
`REASONING_MODEL` are referenced by the endpoint but missing from
`config.py`; their values here are the ones the repository tests exhibit.
The Python set comprehension building `sources` has unspecified iteration
order; it is modelled as first-occurrence de-duplication.
-/

def OLLAMA_FAST_MODEL : String := "qwen2.5:7b"

def OLLAMA_REASONING_MODEL : String := "deepseek-r1:7b"

/-- Modelled from the spec: the fast-mode model identifier
(`settings.FAST_MODEL`, referenced but not defined in `config.py`). -/
def FAST_MODEL : String := "qwen3:7b"

/-- Modelled from the spec: the reasoning-mode model identifier
(`settings.REASONING_MODEL`, referenced but not defined in `config.py`). -/
def REASONING_MODEL : String := "deepseek-r1:8b"

structure PipelineQueryResult where
  answer : String
  mode : String
  model : String
  sources : List (List Char)
  query_tags : List (List Char)
  processing_time_ms : Nat
deriving DecidableEq

/-- Method `RAGPipeline.query` (rag_pipeline.py lines 256-312), after the
tags have been derived: retrieve, short-circuit on zero chunks, else
infer in the requested mode. -/
def RAGPipeline.query (infer_fast infer_reasoning : String → List Row → String)
    (query_text : String) (query_tags : List (List Char)) (rows : List Row)
    (mode : String) (elapsed_ms : Nat) : PipelineQueryResult :=
  let chunks := RAGPipeline.retrieve query_tags rows
  if chunks = [] then
    { answer := "No relevant documents found in the knowledge base."
      mode := mode
      model := if mode = "fast" then OLLAMA_FAST_MODEL else OLLAMA_REASONING_MODEL
      sources := []
      query_tags := query_tags
      processing_time_ms := elapsed_ms }
  else
    { answer := if mode = "reasoning" then infer_reasoning query_text chunks
                else infer_fast query_text chunks
      mode := mode
      model := if mode = "reasoning" then OLLAMA_REASONING_MODEL else OLLAMA_FAST_MODEL
      sources := ((chunks.map (fun c => c.source)).filter (fun s => s ≠ [])).eraseDups
      query_tags := query_tags
      processing_time_ms := elapsed_ms }

structure InferResult where
  answer : String
  reasoning_steps : Option (List String)
  model_used : String
  processing_time_seconds : ℚ

structure QueryResponse where
  query : String
  inference_mode : String
  answer : String
  reasoning_steps : Option (List String)
  sources : List RChunk
  model_used : String
  processing_time_seconds : ℚ
  inference_mode_used : String

/-- Endpoint `query_teammate` (orchestration.py lines 61-107), after
retrieval: short-circuit on zero chunks with a fixed answer, empty
sources, zero elapsed time and the model of the requested mode; else run
the requested inference. -/
def query_teammate (run_reasoning run_fast : List RChunk → String → InferResult)
    (query : String) (inference_mode : String) (chunks : List RChunk) : QueryResponse :=
  if chunks = [] then
    { query := query
      inference_mode := inference_mode
      answer := "No relevant information found in the knowledge base."
      reasoning_steps := none
      sources := []
      model_used := if inference_mode = "reasoning" then REASONING_MODEL else FAST_MODEL
      processing_time_seconds := 0
      inference_mode_used := inference_mode }
  else
    let r := if inference_mode = "reasoning" then run_reasoning chunks query
             else run_fast chunks query
    { query := query
      inference_mode := inference_mode
      answer := r.answer
      reasoning_steps := r.reasoning_steps
      sources := chunks
      model_used := r.model_used
      processing_time_seconds := r.processing_time_seconds
      inference_mode_used := inference_mode }

/-!
Knowledge status, from `app/services/rag_service.py`
(`get_knowledge_status`, lines 165-194).  Its inputs are purely
relational: the optional knowledge-base row of the assistant and its
document rows; it takes no vector-index capability at all.
-/

structure Doc where
  processed_status : String
deriving DecidableEq

structure KB where
  id : String
  vector_db_id : Option String
deriving DecidableEq

structure KnowledgeStatus where
  knowledge_base_id : Option String
  total_documents : Nat
  processed_documents : Nat
  pending_documents : Nat
  total_chunks : Nat
  vector_store_collection : Option String
deriving DecidableEq

def get_knowledge_status (kb : Option KB) (docs : List Doc) : KnowledgeStatus :=
  match kb with
  | none =>
    { knowledge_base_id := none
      total_documents := 0
      processed_documents := 0
      pending_documents := 0
      total_chunks := 0
      vector_store_collection := none }
  | some kb =>
    { knowledge_base_id := some kb.id
      total_documents := docs.length
      processed_documents := (docs.filter (fun d => d.processed_status == "processed")).length
      pending_documents := (docs.filter (fun d =>
        d.processed_status == "pending" || d.processed_status == "processing")).length
      total_chunks := 0
      vector_store_collection := kb.vector_db_id }

/-!
Lemmas.
-/

lemma chunkGoRP_length_le (size step : Nat) :
    ∀ (fuel : Nat) (u : List Char), ∀ c ∈ chunkGoRP size step fuel u, c.length ≤ size := by
  intro fuel
  induction fuel with
  | zero => intro u c hc; simp [chunkGoRP] at hc
  | succ fuel ih =>
    intro u c hc
    simp only [chunkGoRP, List.mem_cons] at hc
    rcases hc with rfl | hc
    · simp only [List.length_take]; omega
    · by_cases h : u.length ≤ size
      · rw [if_pos h] at hc; simp at hc
      · rw [if_neg h] at hc; exact ih _ _ hc

lemma chunkGoRS_length_le (size step : Nat) :
    ∀ (fuel : Nat) (u : List Char), ∀ c ∈ chunkGoRS size step fuel u, c.length ≤ size := by
  intro fuel
  induction fuel with
  | zero => intro u c hc; simp [chunkGoRS] at hc
  | succ fuel ih =>
    intro u c hc
    simp only [chunkGoRS, List.mem_cons] at hc
    rcases hc with rfl | hc
    · simp only [List.length_take]; omega
    · by_cases h : u.length ≤ step
      · rw [if_pos h] at hc; simp at hc
      · rw [if_neg h] at hc; exact ih _ _ hc

lemma chunkGoRP_nonfinal (size step : Nat) (hstep : 1 ≤ step) :
    ∀ (fuel : Nat) (u : List Char), u.length ≤ fuel →
      ∀ i, i + 1 < (chunkGoRP size step fuel u).length →
        ((chunkGoRP size step fuel u).getD i []).length = size := by
  intro fuel
  induction fuel with
  | zero => intro u hu i hi; simp [chunkGoRP] at hi
  | succ fuel ih =>
    intro u hu i hi
    by_cases h : u.length ≤ size
    · simp [chunkGoRP, h] at hi
    · cases i with
      | zero =>
        simp only [chunkGoRP, if_neg h, List.getD_cons_zero, List.length_take]
        omega
      | succ j =>
        simp only [chunkGoRP, if_neg h, List.length_cons] at hi
        simp only [chunkGoRP, if_neg h, List.getD_cons_succ]
        exact ih (u.drop step) (by simp only [List.length_drop]; omega) j (by omega)

lemma dropFlatRP (size step overlap : Nat) (hso : overlap + step = size) (hstep : 1 ≤ step) :
    ∀ (fuel : Nat) (u : List Char), u.length ≤ fuel →
      ((chunkGoRP size step fuel u).map (fun c => c.drop overlap)).flatten = u.drop overlap := by
  intro fuel
  induction fuel with
  | zero =>
    intro u hu
    have : u = [] := List.eq_nil_of_length_eq_zero (by omega)
    subst this; simp [chunkGoRP]
  | succ fuel ih =>
    intro u hu
    by_cases h : u.length ≤ size
    · simp only [chunkGoRP, if_pos h, List.map_cons, List.map_nil, List.flatten_cons,
        List.flatten_nil, List.append_nil]
      rw [List.drop_take]
      exact List.take_of_length_le (by simp only [List.length_drop]; omega)
    · simp only [chunkGoRP, if_neg h, List.map_cons, List.flatten_cons]
      rw [ih (u.drop step) (by simp only [List.length_drop]; omega)]
      rw [List.drop_drop, List.drop_take]
      have h1 : step + overlap = overlap + step := by omega
      rw [h1, ← List.drop_drop]
      have h2 : size - overlap = step := by omega
      rw [h2, List.take_append_drop]

lemma dropFlatRS (size step overlap : Nat) (hso : overlap + step = size) (hstep : 1 ≤ step) :
    ∀ (fuel : Nat) (u : List Char), u.length ≤ fuel →
      ((chunkGoRS size step fuel u).map (fun c => c.drop overlap)).flatten = u.drop overlap := by
  intro fuel
  induction fuel with
  | zero =>
    intro u hu
    have : u = [] := List.eq_nil_of_length_eq_zero (by omega)
    subst this; simp [chunkGoRS]
  | succ fuel ih =>
    intro u hu
    by_cases h : u.length ≤ step
    · simp only [chunkGoRS, if_pos h, List.map_cons, List.map_nil, List.flatten_cons,
        List.flatten_nil, List.append_nil]
      rw [List.drop_take]
      exact List.take_of_length_le (by simp only [List.length_drop]; omega)
    · simp only [chunkGoRS, if_neg h, List.map_cons, List.flatten_cons]
      rw [ih (u.drop step) (by simp only [List.length_drop]; omega)]
      rw [List.drop_drop, List.drop_take]
      have h1 : step + overlap = overlap + step := by omega
      rw [h1, ← List.drop_drop]
      have h2 : size - overlap = step := by omega
      rw [h2, List.take_append_drop]

lemma stitch_chunkGoRP (size step overlap : Nat) (hso : overlap + step = size) (hstep : 1 ≤ step)
    (fuel : Nat) (u : List Char) (hu : u.length ≤ fuel) (hne : u ≠ []) :
    stitch overlap (chunkGoRP size step fuel u) = u := by
  cases fuel with
  | zero =>
    exact absurd (List.eq_nil_of_length_eq_zero (by omega)) hne
  | succ fuel =>
    by_cases h : u.length ≤ size
    · simp only [chunkGoRP, if_pos h, stitch, List.map_nil, List.flatten_nil, List.append_nil]
      exact List.take_of_length_le h
    · simp only [chunkGoRP, if_neg h, stitch]
      rw [dropFlatRP size step overlap hso hstep fuel (u.drop step)
        (by simp only [List.length_drop]; omega)]
      rw [List.drop_drop]
      have h1 : step + overlap = size := by omega
      rw [h1, List.take_append_drop]

lemma stitch_chunkGoRS (size step overlap : Nat) (hso : overlap + step = size) (hstep : 1 ≤ step)
    (fuel : Nat) (u : List Char) (hu : u.length ≤ fuel) (hne : u ≠ []) :
    stitch overlap (chunkGoRS size step fuel u) = u := by
  cases fuel with
  | zero =>
    exact absurd (List.eq_nil_of_length_eq_zero (by omega)) hne
  | succ fuel =>
    by_cases h : u.length ≤ step
    · simp only [chunkGoRS, if_pos h, stitch, List.map_nil, List.flatten_nil, List.append_nil]
      exact List.take_of_length_le (by omega)
    · simp only [chunkGoRS, if_neg h, stitch]
      rw [dropFlatRS size step overlap hso hstep fuel (u.drop step)
        (by simp only [List.length_drop]; omega)]
      rw [List.drop_drop]
      have h1 : step + overlap = size := by omega
      rw [h1, List.take_append_drop]

lemma mem_pyInsert {α : Type} (lt : α → α → Bool) (a x : α) :
    ∀ l : List α, x ∈ pyInsert lt a l ↔ x = a ∨ x ∈ l := by
  intro l
  induction l with
  | nil => simp [pyInsert]
  | cons b bs ih =>
    by_cases h : lt a b
    · simp [pyInsert, h]
    · simp only [pyInsert, if_neg h, List.mem_cons, ih]
      tauto

lemma length_pyInsert {α : Type} (lt : α → α → Bool) (a : α) :
    ∀ l : List α, (pyInsert lt a l).length = l.length + 1 := by
  intro l
  induction l with
  | nil => rfl
  | cons b bs ih =>
    by_cases h : lt a b
    · simp [pyInsert, h]
    · simp [pyInsert, h, ih]

lemma length_pySorted {α : Type} (lt : α → α → Bool) (l : List α) :
    (pySorted lt l).length = l.length := by
  suffices h : ∀ (l acc : List α),
      (l.foldl (fun acc a => pyInsert lt a acc) acc).length = acc.length + l.length by
    simpa using h l []
  intro l
  induction l with
  | nil => intro acc; simp
  | cons a as ih =>
    intro acc
    simp only [List.foldl_cons, ih, length_pyInsert, List.length_cons]
    omega

lemma mem_pySorted {α : Type} (lt : α → α → Bool) (l : List α) (x : α) :
    x ∈ pySorted lt l → x ∈ l := by
  suffices h : ∀ (l acc : List α), x ∈ l.foldl (fun acc a => pyInsert lt a acc) acc →
      x ∈ acc ∨ x ∈ l by
    intro hx
    rcases h l [] hx with h' | h'
    · simp at h'
    · exact h'
  intro l
  induction l with
  | nil => intro acc hx; exact Or.inl hx
  | cons a as ih =>
    intro acc hx
    simp only [List.foldl_cons] at hx
    rcases ih (pyInsert lt a acc) hx with h' | h'
    · rcases (mem_pyInsert lt a x acc).mp h' with rfl | h''
      · simp
      · exact Or.inl h''
    · simp [h']

lemma pairwise_pyInsert {α : Type} (lt : α → α → Bool) (S : α → α → Prop)
    (hconn : ∀ x y, lt y x = false → S x y)
    (htrans : ∀ x y z, S x y → S y z → S x z)
    (hasym : ∀ x y, lt x y = true → lt y x = false)
    (a : α) : ∀ l : List α, List.Pairwise S l → List.Pairwise S (pyInsert lt a l) := by
  intro l
  induction l with
  | nil => intro _; simp [pyInsert, List.pairwise_singleton]
  | cons b bs ih =>
    intro hl
    rcases List.pairwise_cons.mp hl with ⟨hb, hbs⟩
    by_cases h : lt a b
    · rw [pyInsert, if_pos h]
      refine List.pairwise_cons.mpr ⟨?_, hl⟩
      intro x hx
      rcases List.mem_cons.mp hx with heq | hx'
      · rw [heq]; exact hconn a b (hasym a b h)
      · exact htrans a b x (hconn a b (hasym a b h)) (hb x hx')
    · rw [pyInsert, if_neg h]
      have hfalse : lt a b = false := Bool.eq_false_iff.mpr h
      refine List.pairwise_cons.mpr ⟨?_, ih hbs⟩
      intro x hx
      rcases (mem_pyInsert lt a x bs).mp hx with heq | hx'
      · rw [heq]; exact hconn b a hfalse
      · exact hb x hx'

lemma pairwise_pySorted {α : Type} (lt : α → α → Bool) (S : α → α → Prop)
    (hconn : ∀ x y, lt y x = false → S x y)
    (htrans : ∀ x y z, S x y → S y z → S x z)
    (hasym : ∀ x y, lt x y = true → lt y x = false)
    (l : List α) : List.Pairwise S (pySorted lt l) := by
  suffices h : ∀ (l acc : List α), List.Pairwise S acc →
      List.Pairwise S (l.foldl (fun acc a => pyInsert lt a acc) acc) by
    exact h l [] List.Pairwise.nil
  intro l
  induction l with
  | nil => intro acc hacc; exact hacc
  | cons a as ih =>
    intro acc hacc
    exact ih _ (pairwise_pyInsert lt S hconn htrans hasym a acc hacc)

lemma pyRound_nonneg (q : ℚ) (h : 0 ≤ q) : 0 ≤ pyRound q := by
  have hf : (0 : ℤ) ≤ ⌊q⌋ := Int.floor_nonneg.mpr h
  rw [pyRound]
  split
  · exact hf
  · split
    · omega
    · split
      · exact hf
      · omega

lemma pyRound_le (q : ℚ) (B : ℤ) (h : q ≤ B) : pyRound q ≤ B := by
  have hfB : ⌊q⌋ ≤ B := by
    have := Int.floor_le_floor (α := ℚ) h
    rwa [Int.floor_intCast] at this
  by_cases h1 : q - ⌊q⌋ < 1/2
  · rw [pyRound, if_pos h1]; exact hfB
  · have hlt : ⌊q⌋ + 1 ≤ B := by
      rcases lt_or_eq_of_le hfB with hlt | heq
      · omega
      · exfalso
        have h2 : (1 : ℚ)/2 ≤ q - ⌊q⌋ := le_of_not_lt h1
        rw [heq] at h2
        have h3 : (B : ℚ) < q := by linarith
        have h4 : q ≤ (B : ℚ) := h
        linarith
    rw [pyRound, if_neg h1]
    split
    · exact hlt
    · split
      · exact hfB
      · exact hlt

lemma round4_bounds (m : ℚ) (h0 : 0 ≤ m) (h1 : m ≤ 1) :
    0 ≤ round4 m ∧ round4 m ≤ 1 := by
  have hz0 : 0 ≤ pyRound (m * 10000) :=
    pyRound_nonneg _ (mul_nonneg h0 (by norm_num))
  have hz1 : pyRound (m * 10000) ≤ 10000 := by
    refine pyRound_le _ 10000 ?_
    calc m * 10000 ≤ 1 * 10000 := mul_le_mul_of_nonneg_right h1 (by norm_num)
    _ = ((10000 : ℤ) : ℚ) := by norm_num
  constructor
  · refine div_nonneg ?_ (by norm_num)
    exact_mod_cast hz0
  · rw [round4, div_le_one (by norm_num)]
    exact_mod_cast hz1

lemma hasPrefixL_iff (p : List Char) : ∀ l, hasPrefixL p l = true ↔ ∃ t, l = p ++ t := by
  induction p with
  | nil =>
    intro l
    constructor
    · intro _; exact ⟨l, rfl⟩
    · intro _; rfl
  | cons p ps ih =>
    intro l
    cases l with
    | nil =>
      constructor
      · intro h; cases h
      · rintro ⟨t, ht⟩; cases ht
    | cons c cs =>
      simp only [hasPrefixL, Bool.and_eq_true, beq_iff_eq, ih, List.cons_append]
      constructor
      · rintro ⟨rfl, t, rfl⟩; exact ⟨t, rfl⟩
      · rintro ⟨t, ht⟩
        injection ht with h1 h2
        exact ⟨h1.symm, t, h2⟩

lemma findSplit_some (pat : List Char) :
    ∀ (l pre post : List Char), findSplit pat l = some (pre, post) →
      l = pre ++ pat ++ post := by
  intro l
  induction l with
  | nil =>
    intro pre post h
    rw [findSplit] at h
    by_cases hp : hasPrefixL pat []
    · rw [if_pos hp] at h
      obtain ⟨t, ht⟩ := (hasPrefixL_iff pat []).mp hp
      rcases List.append_eq_nil.mp ht.symm with ⟨hpat, hT⟩
      injection h with h'
      injection h' with h1 h2
      rw [← h1, ← h2, hpat]
      rfl
    · rw [if_neg hp] at h
      cases h
  | cons c cs ih =>
    intro pre post h
    rw [findSplit] at h
    by_cases hp : hasPrefixL pat (c :: cs)
    · rw [if_pos hp] at h
      injection h with h'
      injection h' with h1 h2
      obtain ⟨t, ht⟩ := (hasPrefixL_iff pat (c :: cs)).mp hp
      rw [← h1, ← h2, ht, List.nil_append, List.drop_left]
    · rw [if_neg hp] at h
      cases hfs : findSplit pat cs with
      | none => rw [hfs] at h; cases h
      | some pp =>
        obtain ⟨pre', post'⟩ := pp
        rw [hfs] at h
        injection h with h'
        injection h' with h1 h2
        rw [← h1, ← h2, ih pre' post' hfs]
        rfl

lemma findSplit_isSome_of_split (pat : List Char) :
    ∀ (pre post : List Char), (findSplit pat (pre ++ pat ++ post)).isSome = true := by
  have aux : ∀ l, hasPrefixL pat l = true → (findSplit pat l).isSome = true := by
    intro l hl
    cases l with
    | nil => rw [findSplit, if_pos hl]; rfl
    | cons c cs => rw [findSplit, if_pos hl]; rfl
  intro pre
  induction pre with
  | nil =>
    intro post
    exact aux _ ((hasPrefixL_iff pat _).mpr ⟨post, by simp⟩)
  | cons c pre ih =>
    intro post
    by_cases hp : hasPrefixL pat (c :: (pre ++ pat ++ post))
    · exact aux _ hp
    · show (findSplit pat (c :: (pre ++ pat ++ post))).isSome = true
      rw [findSplit, if_neg hp]
      have := ih post
      cases hfs : findSplit pat (pre ++ pat ++ post) with
      | none => rw [hfs] at this; cases this
      | some pp => cases pp; rfl

/-- Occurrence characterisation: `containsSub pat l` holds exactly when
`l` decomposes around an occurrence of `pat`. -/
lemma containsSub_iff (pat l : List Char) :
    containsSub pat l = true ↔ ∃ pre post, l = pre ++ pat ++ post := by
  constructor
  · intro h
    obtain ⟨⟨pre, post⟩, hsome⟩ := Option.isSome_iff_exists.mp h
    exact ⟨pre, post, findSplit_some pat l pre post hsome⟩
  · rintro ⟨pre, post, rfl⟩
    exact findSplit_isSome_of_split pat pre post

/-!
Claim theorems.
-/

/-- C6: every chunk of either chunker is at most `chunk_size` long; in
the `rag_pipeline.py` variant every non-final chunk is exactly
`chunk_size` long.  (The `rag_service.py` variant can produce shorter
non-final chunks; see the counterexample.) -/
theorem C6_spec (t : List Char) (size overlap : Nat) (h : overlap < size) :
    (∀ c ∈ RagPipeline.chunk_text t size overlap, c.length ≤ size) ∧
    (∀ c ∈ RagService.chunk_text t size overlap, c.length ≤ size) ∧
    (∀ i, i + 1 < (RagPipeline.chunk_text t size overlap).length →
      ((RagPipeline.chunk_text t size overlap).getD i []).length = size) := by
  refine ⟨?_, ?_, ?_⟩
  · intro c hc
    unfold RagPipeline.chunk_text at hc
    by_cases ht : t = []
    · rw [if_pos ht] at hc; simp at hc
    · rw [if_neg ht] at hc; exact chunkGoRP_length_le _ _ _ _ _ hc
  · intro c hc
    unfold RagService.chunk_text at hc
    by_cases ht : t = []
    · rw [if_pos ht] at hc; simp at hc
    · rw [if_neg ht] at hc; exact chunkGoRS_length_le _ _ _ _ _ hc
  · intro i hi
    unfold RagPipeline.chunk_text at hi ⊢
    by_cases ht : t = []
    · rw [if_pos ht] at hi; simp at hi
    · rw [if_neg ht] at hi ⊢
      exact chunkGoRP_nonfinal size (size - overlap) (by omega) t.length t le_rfl i hi

/-- Witness for C6 at `t = "abcde"`, `size = 4`, `overlap = 2`. -/
theorem C6_witness :
    2 < 4 ∧
    ((∀ c ∈ RagPipeline.chunk_text "abcde".toList 4 2, c.length ≤ 4) ∧
     (∀ c ∈ RagService.chunk_text "abcde".toList 4 2, c.length ≤ 4) ∧
     (∀ i, i + 1 < (RagPipeline.chunk_text "abcde".toList 4 2).length →
       ((RagPipeline.chunk_text "abcde".toList 4 2).getD i []).length = 4)) :=
  ⟨by decide, C6_spec "abcde".toList 4 2 (by decide)⟩

/-- C6 counterexample: `chunk_text "abcde" 4 2` of `rag_service.py` is
`["abcd", "cde", "e"]`, whose non-final chunk `"cde"` has length 3 ≠ 4. -/
theorem C6_counterexample :
    ¬ (∀ (t : List Char) (size overlap : Nat), overlap < size →
        ∀ i, i + 1 < (RagService.chunk_text t size overlap).length →
          ((RagService.chunk_text t size overlap).getD i []).length = size) := by
  intro h
  exact absurd (h "abcde".toList 4 2 (by decide) 1 (by decide)) (by decide)

/-- C7: both chunkers reconstruct the original text exactly when chunks
are stitched back at the known overlap offset (keep the first chunk
whole, then drop the first `overlap` characters of each subsequent
chunk). -/
theorem C7_spec (t : List Char) (size overlap : Nat) (h : overlap < size) :
    stitch overlap (RagPipeline.chunk_text t size overlap) = t ∧
    stitch overlap (RagService.chunk_text t size overlap) = t := by
  constructor
  · unfold RagPipeline.chunk_text
    by_cases ht : t = []
    · rw [if_pos ht, ht]; rfl
    · rw [if_neg ht]
      exact stitch_chunkGoRP size (size - overlap) overlap (by omega) (by omega)
        t.length t le_rfl ht
  · unfold RagService.chunk_text
    by_cases ht : t = []
    · rw [if_pos ht, ht]; rfl
    · rw [if_neg ht]
      exact stitch_chunkGoRS size (size - overlap) overlap (by omega) (by omega)
        t.length t le_rfl ht

/-- Witness for C7 at `t = "abcdefgh"`, `size = 4`, `overlap = 2`. -/
theorem C7_witness :
    2 < 4 ∧
    (stitch 2 (RagPipeline.chunk_text "abcdefgh".toList 4 2) = "abcdefgh".toList ∧
     stitch 2 (RagService.chunk_text "abcdefgh".toList 4 2) = "abcdefgh".toList) :=
  ⟨by decide, C7_spec "abcdefgh".toList 4 2 (by decide)⟩

/-- C8: both chunkers send the empty text to `[]`; the `rag_pipeline.py`
variant returns `[t]` for every nonempty `t` with `len(t) ≤ size`.  (The
`rag_service.py` variant can emit a second tail chunk; see the
counterexample.) -/
theorem C8_spec (size overlap : Nat) (h : overlap < size) :
    RagPipeline.chunk_text [] size overlap = [] ∧
    RagService.chunk_text [] size overlap = [] ∧
    (∀ t : List Char, t ≠ [] → t.length ≤ size →
      RagPipeline.chunk_text t size overlap = [t]) := by
  refine ⟨rfl, rfl, ?_⟩
  intro t ht hlen
  unfold RagPipeline.chunk_text
  rw [if_neg ht]
  cases t with
  | nil => exact absurd rfl ht
  | cons c cs =>
    show (c :: cs).take size :: _ = _
    rw [if_pos hlen, List.take_of_length_le hlen]

/-- Witness for C8 at `size = 4`, `overlap = 2`, `t = "abc"`. -/
theorem C8_witness :
    2 < 4 ∧
    (RagPipeline.chunk_text [] 4 2 = [] ∧
     RagService.chunk_text [] 4 2 = [] ∧
     (∀ t : List Char, t ≠ [] → t.length ≤ 4 →
       RagPipeline.chunk_text t 4 2 = [t])) :=
  ⟨by decide, C8_spec 4 2 (by decide)⟩

/-- C8 counterexample: `chunk_text "abcd" 4 2` of `rag_service.py` is
`["abcd", "cd"]`, not `["abcd"]`, although `len("abcd") = 4 ≤ size`. -/
theorem C8_counterexample :
    ¬ (∀ (t : List Char) (size overlap : Nat), overlap < size →
        t.length ≤ size → RagService.chunk_text t size overlap = [t]) := by
  intro h
  exact absurd (h "abcd".toList 4 2 (by decide) (by decide)) (by decide)

/-- C2 (amended): weighted routing ranks candidates descending by
resolved weight, ties among equal weights broken by LATER creation time
first (`reverse=True` reverses the `created_at` tie-break as well); the
top `max(1, max_assistants)` are taken; and on assistants `A` of weight
`0.1` and `B` of weight `2.5` with `max_assistants = 1` the selection is
exactly `[B]`. -/
theorem C2_spec :
    (∀ (l : List Assistant) (w : List (String × ℚ)) (m : Nat),
      (route_weighted l w m).length = min m l.length ∧
      List.Pairwise (fun a b =>
        wOf w b < wOf w a ∨ (wOf w a = wOf w b ∧ b.created_at ≤ a.created_at))
        (route_weighted l w m)) ∧
    (∀ (tas : List Assistant) (cfg : OrchestrationConfig),
      normalizeStrategy cfg.strategy = "weighted" →
      resolve_assistants tas cfg.assistant_ids ≠ [] →
      run_selection tas cfg = some (route_weighted
        (resolve_assistants tas cfg.assistant_ids)
        (resolve_weights cfg.weights cfg.weights_by_name
          (resolve_assistants tas cfg.assistant_ids))
        (max 1 (resolve_max_assistants cfg.max_assistants)))) ∧
    run_selection [assistantA, assistantB] configAB = some [assistantB] := by
  refine ⟨?_, ?_, ?_⟩
  · intro l w m
    constructor
    · rw [route_weighted, List.length_take, length_pySorted]
    · refine List.Pairwise.sublist (List.take_sublist _ _) ?_
      refine pairwise_pySorted _ _ ?_ ?_ ?_ l
      · intro x y h
        simp only [routeLt, Bool.or_eq_false_iff, Bool.and_eq_false_iff,
          decide_eq_false_iff_not] at h
        obtain ⟨h1, h2⟩ := h
        rcases eq_or_lt_of_le (le_of_not_lt h1) with heq | hlt
        · refine Or.inr ⟨heq.symm, ?_⟩
          rcases h2 with h2 | h2
          · exact absurd heq h2
          · exact Nat.le_of_not_lt h2
        · exact Or.inl hlt
      · intro x y z hxy hyz
        rcases hxy with hxy | ⟨hxy1, hxy2⟩ <;> rcases hyz with hyz | ⟨hyz1, hyz2⟩
        · exact Or.inl (hyz.trans hxy)
        · exact Or.inl (hyz1 ▸ hxy)
        · exact Or.inl (hxy1.symm ▸ hyz)
        · exact Or.inr ⟨hxy1.trans hyz1, hyz2.trans hxy2⟩
      · intro x y h
        simp only [routeLt, Bool.or_eq_true, Bool.and_eq_true, decide_eq_true_eq] at h
        simp only [routeLt, Bool.or_eq_false_iff, Bool.and_eq_false_iff,
          decide_eq_false_iff_not]
        rcases h with h | ⟨h1, h2⟩
        · exact ⟨lt_asymm h, Or.inl (ne_of_lt h)⟩
        · exact ⟨fun hc => absurd h1 (ne_of_lt hc), Or.inr (Nat.lt_asymm h2)⟩
  · intro tas cfg hstrat hne
    rw [run_selection]
    simp [hstrat, hne]
  · rfl

/-- Witness for the conditional conjunct of C2 at the concrete `A`/`B`
input. -/
theorem C2_witness :
    normalizeStrategy configAB.strategy = "weighted" ∧
    resolve_assistants [assistantA, assistantB] configAB.assistant_ids ≠ [] ∧
    run_selection [assistantA, assistantB] configAB = some (route_weighted
      (resolve_assistants [assistantA, assistantB] configAB.assistant_ids)
      (resolve_weights configAB.weights configAB.weights_by_name
        (resolve_assistants [assistantA, assistantB] configAB.assistant_ids))
      (max 1 (resolve_max_assistants configAB.max_assistants))) :=
  ⟨rfl, by decide,
    C2_spec.2.1 [assistantA, assistantB] configAB rfl (by decide)⟩

/-- C2 counterexample: with two assistants of equal resolved weight
(`1.0` each) created at times `0 < 1` and `max_assistants = 1`,
`run_teammate_query` selects the LATER-created assistant, not the
earlier-created one that the tie-break of the claim mandates. -/
theorem C2_counterexample :
    run_selection [tieX, tieY] configTie ≠ some [tieX] ∧
    run_selection [tieX, tieY] configTie = some [tieY] ∧
    resolvedWeight configTie.weights configTie.weights_by_name tieX =
      resolvedWeight configTie.weights configTie.weights_by_name tieY ∧
    tieX.created_at < tieY.created_at := by
  have h : run_selection [tieX, tieY] configTie = some [tieY] := rfl
  refine ⟨?_, h, rfl, by decide⟩
  rw [h]
  intro hc
  simp [tieX, tieY] at hc

/-- C1: the fallback policy holds for `RAGPipeline._retrieve` — with at
least one unfiltered candidate the result is never empty, and a query
whose tags overlap no chunk tags gets exactly the untagged result — but
`retrieve_chunks` (the variant used by the query endpoint) returns zero
chunks for such a query although an unfiltered candidate exists, because
a filtered Chroma query that merely matches nothing raises no exception
and triggers no fallback. -/
theorem C1_spec :
    (∀ (qt : List (List Char)) (rows : List Row),
      rows ≠ [] → RAGPipeline.retrieve qt rows ≠ []) ∧
    (∀ (qt : List (List Char)) (rows : List Row),
      (∀ r ∈ rows, hasOverlap qt (chunkTags r.tags) = false) →
      RAGPipeline.retrieve qt rows = rows ∧ RAGPipeline.retrieve [] rows = rows) ∧
    (retrieve_chunks [c1Entry] ["billing".toList] 5 = [] ∧
     retrieve_chunks [c1Entry] [] 5 ≠ []) := by
  refine ⟨?_, ?_, by decide, by decide⟩
  · intro qt rows hne
    rw [RAGPipeline.retrieve]
    split
    · exact hne
    · assumption
  · intro qt rows hno
    have hall : RAGPipeline.retrieve [] rows = rows := by
      rw [RAGPipeline.retrieve]
      have : rows.filter (fun r => (List.isEmpty ([] : List (List Char))) ||
          hasOverlap [] (chunkTags r.tags)) = rows := by
        apply List.filter_eq_self.mpr
        intro a _
        simp
      rw [this]
      split <;> simp_all
    refine ⟨?_, hall⟩
    cases qt with
    | nil => exact hall
    | cons q qs =>
      rw [RAGPipeline.retrieve]
      have : rows.filter (fun r => (List.isEmpty (q :: qs)) ||
          hasOverlap (q :: qs) (chunkTags r.tags)) = [] := by
        rw [List.filter_eq_nil_iff]
        intro a ha
        simp [hno a ha]
      rw [this]
      simp

/-- Witness for the conditional conjuncts of C1 at the concrete failing
input: the pipeline variant falls back to the full candidate list there. -/
theorem C1_witness :
    RAGPipeline.retrieve ["billing".toList] [c1Row] ≠ [] ∧
    RAGPipeline.retrieve ["billing".toList] [c1Row] = [c1Row] :=
  ⟨C1_spec.1 ["billing".toList] [c1Row] (by decide),
   (C1_spec.2.1 ["billing".toList] [c1Row] (by decide)).1⟩

/-- C9 (amended): the relevance scores of the retrieved chunks are
exactly `round(max(0, 1 - distance), 4)` for the distances of the
retrieved index entries (not the unrounded `max(0, 1 - distance)` — see
the counterexample); for a non-negative distance (cosine distances are)
that score lies in `[0, 1]`. -/
theorem C9_spec :
    (∀ (col : List Entry) (tf : List (List Char)) (k : Nat),
      (retrieve_chunks col tf k).map (fun c => c.relevance_score) =
        (chromaQuery col (if tf = [] then none else some tf) k).map
          (fun e => round4 (max 0 (1 - e.dist)))) ∧
    (∀ d : ℚ, 0 ≤ d → 0 ≤ relevance_score d ∧ relevance_score d ≤ 1) := by
  constructor
  · intro col tf k
    rw [retrieve_chunks, List.map_map]
    rfl
  · intro d hd
    have h0 : 0 ≤ max 0 (1 - d) := le_max_left 0 (1 - d)
    have h1 : max 0 (1 - d) ≤ 1 := max_le (by norm_num) (by linarith)
    exact round4_bounds _ h0 h1

/-- Witness for the bound conjunct of C9 at distance `1/10`. -/
theorem C9_witness :
    (0 : ℚ) ≤ mkRat 1 10 ∧
    (0 ≤ relevance_score (mkRat 1 10) ∧ relevance_score (mkRat 1 10) ≤ 1) :=
  ⟨by decide, C9_spec.2 (mkRat 1 10) (by decide)⟩

/-- C9 counterexample: at distance `0.00003` the reported score is the
rounded `1.0`, not `max(0, 1 − distance) = 0.99997` as the claim states. -/
theorem C9_counterexample :
    relevance_score (mkRat 3 100000) = 1 ∧
    max (0 : ℚ) (1 - mkRat 3 100000) ≠ 1 := by
  have hm : max (0 : ℚ) (1 - mkRat 3 100000) = 99997/100000 := by
    rw [max_eq_right (by norm_num)]
    norm_num
  constructor
  · rw [relevance_score, hm, round4]
    have hq : (99997 : ℚ)/100000 * 10000 = 99997/10 := by norm_num
    rw [hq]
    have hf : ⌊(99997 : ℚ)/10⌋ = 9999 := by
      rw [Int.floor_eq_iff]
      constructor <;> norm_num
    rw [pyRound, hf]
    rw [if_neg (by norm_num), if_pos (by norm_num)]
    norm_num
  · rw [hm]
    norm_num

/-- C3: the reasoning-trace extraction yields the two trimmed steps and
the remainder for the worked example, and leaves inputs with no marked
span untouched (`reasoning_steps == []`, answer equal to the input). -/
theorem C3_spec :
    extract_reasoning_steps
        "<think>Step 1: analyze\nStep 2: conclude</think>Final answer here." =
      (["Step 1: analyze", "Step 2: conclude"], "Final answer here.") ∧
    (∀ s : String, containsSub thinkOpen s.toList = false →
      extract_reasoning_steps s = ([], s)) := by
  constructor
  · decide
  · intro s h
    obtain ⟨sd⟩ := s
    have hnone : findSplit thinkOpen (String.mk sd).toList = none := by
      cases hfs : findSplit thinkOpen (String.mk sd).toList with
      | none => rfl
      | some v =>
        rw [containsSub, hfs] at h
        cases h
    have hgo : ∀ fuel, extractGo fuel (String.mk sd).toList = ([], (String.mk sd).toList) := by
      intro fuel
      cases fuel with
      | zero => rfl
      | succ fuel => rw [extractGo, hnone]
    rw [extract_reasoning_steps, hgo]
    rfl

/-- Witness for the no-marked-span conjunct of C3 at a concrete plain
answer. -/
theorem C3_witness :
    containsSub thinkOpen "Just a plain answer.".toList = false ∧
    extract_reasoning_steps "Just a plain answer." = ([], "Just a plain answer.") :=
  ⟨by decide, C3_spec.2 "Just a plain answer." (by decide)⟩

/-- C5 (amended): `generate_tags` of the tagging service maps any failure
of the generative call to the empty tag list, but `RAGPipeline.tag_text`
has no handler and propagates the failure (so a tagging failure does
abort a `RAGPipeline.query`, which calls it unguarded). -/
theorem C5_spec :
    (∀ (e : String) (n : Nat), generate_tags (Except.error e) n = []) ∧
    (∀ e : String, RAGPipeline.tag_text (Except.error e) = Except.error e) :=
  ⟨fun _ _ => rfl, fun _ => rfl⟩

/-- C5 counterexample: a failing generate call makes `tag_text` return
the error rather than an empty tag sequence. -/
theorem C5_counterexample :
    RAGPipeline.tag_text (Except.error "ollama generate timeout") =
      Except.error "ollama generate timeout" ∧
    (Except.error "ollama generate timeout" : Except String (List String)) ≠
      Except.ok [] :=
  ⟨rfl, fun h => Except.noConfusion h⟩

/-- C4 (amended): on zero retrieved chunks the endpoint returns the fixed
"No relevant information" answer, no reasoning steps, empty sources, zero
elapsed seconds and the model of the requested mode, independently of the
inference functions (no generation call); `RAGPipeline.query` likewise
short-circuits independently of inference, but with its own fixed answer
("No relevant documents …", which does not contain the "no relevant
information" phrase) and with the measured elapsed milliseconds rather
than a constant zero. -/
theorem C4_spec :
    (∀ (rr rf rr' rf' : List RChunk → String → InferResult) (q m : String),
      query_teammate rr rf q m [] =
        { query := q
          inference_mode := m
          answer := "No relevant information found in the knowledge base."
          reasoning_steps := none
          sources := []
          model_used := if m = "reasoning" then REASONING_MODEL else FAST_MODEL
          processing_time_seconds := 0
          inference_mode_used := m } ∧
      query_teammate rr rf q m [] = query_teammate rr' rf' q m []) ∧
    (∀ (f g f' g' : String → List Row → String) (qt : String)
        (tags : List (List Char)) (m : String) (ms : Nat),
      RAGPipeline.query f g qt tags [] m ms =
        { answer := "No relevant documents found in the knowledge base."
          mode := m
          model := if m = "fast" then OLLAMA_FAST_MODEL else OLLAMA_REASONING_MODEL
          sources := []
          query_tags := tags
          processing_time_ms := ms } ∧
      RAGPipeline.query f g qt tags [] m ms = RAGPipeline.query f' g' qt tags [] m ms) ∧
    containsSub "No relevant information".toList
      "No relevant information found in the knowledge base.".toList = true := by
  refine ⟨fun rr rf rr' rf' q m => ⟨rfl, rfl⟩,
    fun f g f' g' qt tags m ms => ⟨rfl, rfl⟩, by decide⟩

/-- C4 counterexample: the short-circuit answer of `RAGPipeline.query`
does not contain the "no relevant information" phrase (in either case
form), and its reported time is the measured elapsed value (7 ms here),
not zero. -/
theorem C4_counterexample :
    containsSub "relevant information".toList
      (RAGPipeline.query (fun _ _ => "") (fun _ _ => "") "q" [] [] "fast" 7).answer.toList
      = false ∧
    containsSub "No relevant information".toList
      (RAGPipeline.query (fun _ _ => "") (fun _ _ => "") "q" [] [] "fast" 7).answer.toList
      = false ∧
    (RAGPipeline.query (fun _ _ => "") (fun _ _ => "") "q" [] [] "fast" 7).processing_time_ms
      = 7 :=
  ⟨by decide, by decide, rfl⟩

/-- C10: `get_knowledge_status` reports `total_chunks = 0` for every
database state — including one with processed documents — because both
branches hard-code `0` and the function consumes only relational rows,
never the vector index. -/
theorem C10_spec :
    (∀ (kb : Option KB) (docs : List Doc), (get_knowledge_status kb docs).total_chunks = 0) ∧
    (get_knowledge_status (some { id := "kb1", vector_db_id := some "col" })
        [{ processed_status := "processed" }, { processed_status := "processed" }]).total_chunks
      = 0 ∧
    (get_knowledge_status (some { id := "kb1", vector_db_id := some "col" })
        [{ processed_status := "processed" }, { processed_status := "processed" }]).processed_documents
      = 2 := by
  refine ⟨?_, rfl, by decide⟩
  intro kb docs
  cases kb <;> rfl

end Oyl
